import Mathlib

/-!
Verification of the pulse-py client's workflow-engine specification against the
code of `pulse/core/jobs.py` (the `Job` model with its `refresh` and `wait`
polling helpers) and, where the scheduler/cache code is not among the provided
sources, against models built from the specification text.

The embedding of `Job.refresh` and `Job.wait` follows the compiled module
`pulse/core/__pycache__/jobs.cpython-312.pyc` instruction by instruction:

* `Job` is a pydantic model with fields `id` (alias `jobId`),
  `status` (alias `jobStatus`, a literal out of
  `"pending" | "completed" | "error" | "failed"`), `message` (default `None`)
  and `result_url` (alias `resultUrl`, default `None`).
* `refresh(max_retries=10, retry_delay=10.0)` loops
  `for attempt in range(max_retries)`, issuing `GET /jobs?jobId=...`;
  a 500 or 404 response sleeps `retry_delay` and retries while
  `attempt < max_retries - 1`, else raises `PulseAPIError(response)`;
  any other non-200 response raises `PulseAPIError(response)` at once;
  a 200 response is parsed, a missing `jobId` key is filled from `self.id`,
  and a fresh `Job` is built with `Job.model_validate(data)` and returned.
* `wait(timeout=180.0)` records `start = time.time()` and loops: it calls
  `self.refresh()`; on status `"pending"` it checks
  `time.time() - start > timeout` (raising `TimeoutError`) and sleeps 2.0 s;
  on `"completed"` it fetches `result_url` when that is truthy (non-200 fetch
  raises `PulseAPIError`, otherwise the fetched body is returned) and returns
  the job itself otherwise; on any other status it raises
  `RuntimeError("Job " + self.id + " " + job.status + ": " + (job.message or ""))`.

HTTP traffic and the wall clock are passed in explicitly: `Transport.jobs n`
is the response to the n-th status query issued over the client and
`WaitEnv.clock n` is the n-th reading of `time.time()`.
-/

namespace Pulse

/-- Parsed JSON payload of a `/jobs` status response, with the keys the code
reads: `jobId`, `jobStatus`, `message`, `resultUrl`. -/
structure JobData where
  jobId : Option String := none
  jobStatus : String
  message : Option String := none
  resultUrl : Option String := none
deriving Repr, DecidableEq

/-- An HTTP response to `GET /jobs?jobId=...`: a status code and the decoded
JSON body. -/
structure JobsHttpResponse where
  status_code : Nat
  data : JobData
deriving Repr, DecidableEq

/-- An HTTP response to the result-location fetch performed by `wait` for a
completed job: a status code and the decoded JSON body (the final artifact). -/
structure FetchHttpResponse where
  status_code : Nat
  body : String
deriving Repr, DecidableEq

/-- The `Job` pydantic model of `pulse/core/jobs.py`: `id` (alias `jobId`),
`status` (alias `jobStatus`), `message` (default `None`), `result_url`
(alias `resultUrl`, default `None`). -/
structure Job where
  id : String
  status : String
  message : Option String := none
  result_url : Option String := none
deriving Repr, DecidableEq

/-- The exceptions the two methods can raise: `PulseAPIError(response)` from
`pulse.core.exceptions`, plus built-in `RuntimeError`, `TimeoutError`,
pydantic validation failure, and the `UnboundLocalError` that the dead
`raise PulseAPIError(response)` after the loop would hit for
`max_retries = 0`. Each API error records the offending response's status
code. -/
inductive PyError where
  | pulseAPIError (status_code : Nat) : PyError
  | runtimeError (msg : String) : PyError
  | timeoutError (msg : String) : PyError
  | validationError : PyError
  | unboundLocal : PyError
deriving Repr, DecidableEq

/-- The mocked remote endpoints consumed by the job monitor: `jobs n` is the
response to the n-th `GET /jobs?jobId=...` issued over this client, and
`fetch url` the response to `GET url` for a result location. -/
structure Transport where
  jobs : Nat → JobsHttpResponse
  fetch : String → FetchHttpResponse

/-- The literal status values admitted by the `status` field of `Job`:
`Literal["pending", "completed", "error", "failed"]`. -/
def jobStatusLiteral : List String := ["pending", "completed", "error", "failed"]

/-- `Job.model_validate(data)`: requires a `jobId` value (the code patches it
in before validating when the response body lacks it) and a `jobStatus` drawn
from the literal; builds the model instance with `message` and `result_url`
defaulting to `None` when absent. -/
def model_validate (data : JobData) : Option Job :=
  match data.jobId with
  | none => none
  | some i =>
    if data.jobStatus ∈ jobStatusLiteral then
      some { id := i, status := data.jobStatus, message := data.message,
             result_url := data.resultUrl }
    else none

/-- The patch `refresh` applies to the decoded body before validating:
`if "jobId" not in data: data["jobId"] = self.id`. -/
def patchJobId (selfId : String) (d : JobData) : JobData :=
  match d.jobId with
  | none => { d with jobId := some selfId }
  | some _ => d

/-- Everything observable about one `refresh()` call: its outcome (the
returned `Job` or the raised exception), the number of status queries it
issued, and the sequence of `time.sleep` durations it performed. -/
structure RefreshResult where
  outcome : Except PyError Job
  attempts : Nat
  sleeps : List ℚ
deriving Repr

/-- The body of `Job.refresh`, faithful to the compiled code: iteration
`attempt` (of `range(max_retries)`) issues the status query
`t.jobs (base + attempt)`; a 500 or 404 sleeps `retryDelay` and continues
while `attempt < max_retries - 1` and otherwise raises
`PulseAPIError(response)`; any other non-200 raises `PulseAPIError(response)`
immediately; a 200 fills a missing `jobId` from `self.id`, validates, and
returns the fresh `Job`. Falling out of the loop (possible only for
`max_retries = 0`) hits `raise PulseAPIError(response)` with `response`
unbound. -/
def refreshGo (self : Job) (t : Transport) (maxRetries : Nat) (retryDelay : ℚ)
    (base : Nat) (attempt : Nat) : RefreshResult :=
  if _h : attempt < maxRetries then
    let response := t.jobs (base + attempt)
    if response.status_code = 500 ∨ response.status_code = 404 then
      if attempt < maxRetries - 1 then
        let r := refreshGo self t maxRetries retryDelay base (attempt + 1)
        ⟨r.outcome, r.attempts, retryDelay :: r.sleeps⟩
      else
        ⟨Except.error (PyError.pulseAPIError response.status_code), attempt + 1, []⟩
    else if response.status_code ≠ 200 then
      ⟨Except.error (PyError.pulseAPIError response.status_code), attempt + 1, []⟩
    else
      match model_validate (patchJobId self.id response.data) with
      | some job => ⟨Except.ok job, attempt + 1, []⟩
      | none => ⟨Except.error PyError.validationError, attempt + 1, []⟩
  else
    ⟨Except.error PyError.unboundLocal, attempt, []⟩
termination_by maxRetries - attempt
decreasing_by omega

/-- `Job.refresh(max_retries=10, retry_delay=10.0)`; `base` counts the status
queries already issued over this client before the call. -/
def Job.refresh (self : Job) (t : Transport) (base : Nat)
    (maxRetries : Nat := 10) (retryDelay : ℚ := 10) : RefreshResult :=
  refreshGo self t maxRetries retryDelay base 0

/-- What a successful `wait()` evaluates to: the artifact fetched from the
result location, or — for a completed job without one — the job object
itself. -/
inductive WaitValue where
  | artifact (body : String) : WaitValue
  | job (j : Job) : WaitValue
deriving Repr, DecidableEq

/-- The environment `wait` runs in: the remote transport plus the wall clock,
`clock n` being the n-th reading of `time.time()` (reading 0 is the `start`
taken on entry). -/
structure WaitEnv where
  t : Transport
  clock : Nat → ℚ

/-- The message of the `TimeoutError` raised by `wait`. -/
def timeoutMsg (self : Job) (timeout : ℚ) : String :=
  "Job " ++ self.id ++ " did not finish in " ++ toString timeout ++ " seconds"

/-- The message of the `RuntimeError` raised by `wait` on a job whose status
is neither `pending` nor `completed`. -/
def failureMsg (self : Job) (job : Job) : String :=
  "Job " ++ self.id ++ " " ++ job.status ++ ": " ++ job.message.getD ""

/-- The polling loop of `Job.wait`, faithful to the compiled code. Each
iteration calls `self.refresh()` (with its default arguments); status
`"pending"` falls through to the timeout check `time.time() - start > timeout`
and a 2-second sleep; `"completed"` returns the fetched artifact when
`job.result_url` is truthy (raising `PulseAPIError` on a non-200 fetch) and
the job itself otherwise; every other status raises `RuntimeError`. The loop
has no bound in the source; `fuel` caps the number of iterations modelled and
`none` means the loop was still running after `fuel` iterations. `base` counts
status queries already issued, `tick` the `time.time()` readings already
taken. -/
def waitGo (self : Job) (env : WaitEnv) (timeout : ℚ) (start : ℚ) :
    Nat → Nat → Nat → Option (Except PyError WaitValue)
  | _base, _tick, 0 => none
  | base, tick, fuel + 1 =>
    let r := Job.refresh self env.t base
    match r.outcome with
    | Except.error e => some (Except.error e)
    | Except.ok job =>
      if job.status = "pending" then
        if env.clock tick - start > timeout then
          some (Except.error (PyError.timeoutError (timeoutMsg self timeout)))
        else
          waitGo self env timeout start (base + r.attempts) (tick + 1) fuel
      else if job.status = "completed" then
        match job.result_url with
        | some url =>
          if url ≠ "" then
            let resp := env.t.fetch url
            if resp.status_code ≠ 200 then
              some (Except.error (PyError.pulseAPIError resp.status_code))
            else
              some (Except.ok (WaitValue.artifact resp.body))
          else
            some (Except.ok (WaitValue.job job))
        | none => some (Except.ok (WaitValue.job job))
      else
        some (Except.error (PyError.runtimeError (failureMsg self job)))

/-- `Job.wait(timeout=180.0)` on a fresh client trace: takes the `start`
clock reading and enters the polling loop. -/
def Job.wait (self : Job) (env : WaitEnv) (fuel : Nat)
    (timeout : ℚ := 180) : Option (Except PyError WaitValue) :=
  waitGo self env timeout (env.clock 0) 0 1 fuel

/-! ### Basic facts about `refresh` -/

/-- The status codes `refresh` treats as transient: exactly 500 and 404. -/
def isTransient (r : JobsHttpResponse) : Prop :=
  r.status_code = 500 ∨ r.status_code = 404

instance (r : JobsHttpResponse) : Decidable (isTransient r) := by
  unfold isTransient; infer_instance

/-- The `Job` that a 200 response validates to (given an admissible status):
all fields come from the response body, with only a missing `jobId` defaulted
from the polling job's own id. -/
def validatedJob (self : Job) (d : JobData) : Job :=
  { id := d.jobId.getD self.id, status := d.jobStatus,
    message := d.message, result_url := d.resultUrl }

theorem model_validate_patch (selfId : String) (d : JobData)
    (hs : d.jobStatus ∈ jobStatusLiteral) :
    model_validate (patchJobId selfId d) =
      some { id := d.jobId.getD selfId, status := d.jobStatus,
             message := d.message, result_url := d.resultUrl } := by
  cases hj : d.jobId with
  | none => simp [patchJobId, model_validate, hj, hs]
  | some i => simp [patchJobId, model_validate, hj, hs]

/-- One transient attempt with retries remaining: sleep `retryDelay` and
continue with the next attempt. -/
theorem refreshGo_transient_continue (self : Job) (t : Transport)
    (maxRetries : Nat) (retryDelay : ℚ) (base attempt : Nat)
    (hlt : attempt < maxRetries - 1)
    (htrans : isTransient (t.jobs (base + attempt))) :
    refreshGo self t maxRetries retryDelay base attempt =
      ⟨(refreshGo self t maxRetries retryDelay base (attempt + 1)).outcome,
       (refreshGo self t maxRetries retryDelay base (attempt + 1)).attempts,
       retryDelay :: (refreshGo self t maxRetries retryDelay base (attempt + 1)).sleeps⟩ := by
  have h1 : attempt < maxRetries := by omega
  rw [refreshGo]
  simp only [isTransient] at htrans
  simp [h1, hlt, htrans]

/-- A transient response on the final attempt raises
`PulseAPIError(response)` without sleeping again. -/
theorem refreshGo_transient_last (self : Job) (t : Transport)
    (maxRetries : Nat) (retryDelay : ℚ) (base attempt : Nat)
    (h1 : attempt < maxRetries) (hlast : ¬ attempt < maxRetries - 1)
    (htrans : isTransient (t.jobs (base + attempt))) :
    refreshGo self t maxRetries retryDelay base attempt =
      ⟨Except.error (PyError.pulseAPIError ((t.jobs (base + attempt)).status_code)),
       attempt + 1, []⟩ := by
  rw [refreshGo]
  simp only [isTransient] at htrans
  simp [h1, hlast, htrans]

/-- A non-transient non-200 response raises `PulseAPIError(response)` at
once. -/
theorem refreshGo_hard_error (self : Job) (t : Transport)
    (maxRetries : Nat) (retryDelay : ℚ) (base attempt : Nat)
    (h1 : attempt < maxRetries) (hnt : ¬ isTransient (t.jobs (base + attempt)))
    (hne : (t.jobs (base + attempt)).status_code ≠ 200) :
    refreshGo self t maxRetries retryDelay base attempt =
      ⟨Except.error (PyError.pulseAPIError ((t.jobs (base + attempt)).status_code)),
       attempt + 1, []⟩ := by
  rw [refreshGo]
  simp only [isTransient] at hnt
  simp [h1, hnt, hne]

/-- A 200 response with an admissible status validates and returns the fresh
`Job` built from the response body. -/
theorem refreshGo_success (self : Job) (t : Transport)
    (maxRetries : Nat) (retryDelay : ℚ) (base attempt : Nat)
    (h1 : attempt < maxRetries)
    (h200 : (t.jobs (base + attempt)).status_code = 200)
    (hval : (t.jobs (base + attempt)).data.jobStatus ∈ jobStatusLiteral) :
    refreshGo self t maxRetries retryDelay base attempt =
      ⟨Except.ok (validatedJob self (t.jobs (base + attempt)).data),
       attempt + 1, []⟩ := by
  have hnt : ¬ ((t.jobs (base + attempt)).status_code = 500 ∨
      (t.jobs (base + attempt)).status_code = 404) := by omega
  rw [refreshGo]
  simp [h1, hnt, h200, model_validate_patch _ _ hval, validatedJob]

/-- If every status query from attempt `a` to the end of the retry budget
answers transiently, the loop performs all remaining attempts, sleeps between
consecutive ones, and raises `PulseAPIError` carrying the final response. -/
theorem refreshGo_all_transient (self : Job) (t : Transport)
    (maxRetries : Nat) (retryDelay : ℚ) (base : Nat) :
    ∀ n a, maxRetries - 1 - a = n → a < maxRetries →
    (∀ i, a ≤ i → i < maxRetries → isTransient (t.jobs (base + i))) →
    refreshGo self t maxRetries retryDelay base a =
      ⟨Except.error
        (PyError.pulseAPIError ((t.jobs (base + (maxRetries - 1))).status_code)),
       maxRetries, List.replicate n retryDelay⟩ := by
  intro n
  induction n with
  | zero =>
    intro a hn ha htr
    have hlast : ¬ a < maxRetries - 1 := by omega
    have hae : a = maxRetries - 1 := by omega
    rw [refreshGo_transient_last self t maxRetries retryDelay base a ha hlast
      (htr a (Nat.le_refl a) ha)]
    simp [hae]
    omega
  | succ n ih =>
    intro a hn ha htr
    have hlt : a < maxRetries - 1 := by omega
    rw [refreshGo_transient_continue self t maxRetries retryDelay base a hlt
      (htr a (Nat.le_refl a) ha)]
    rw [ih (a + 1) (by omega) (by omega) (fun i h1 h2 => htr i (by omega) h2)]
    simp [List.replicate_succ]

/-- If the first `k` status queries from attempt `a` answer transiently and
query `a + k` succeeds with an admissible status, the loop returns the
validated `Job` after exactly `a + k + 1` attempts, having slept `k` times. -/
theorem refreshGo_succeeds_after (self : Job) (t : Transport)
    (maxRetries : Nat) (retryDelay : ℚ) (base : Nat) :
    ∀ k a, a + k < maxRetries →
    (∀ i, a ≤ i → i < a + k → isTransient (t.jobs (base + i))) →
    (t.jobs (base + (a + k))).status_code = 200 →
    (t.jobs (base + (a + k))).data.jobStatus ∈ jobStatusLiteral →
    refreshGo self t maxRetries retryDelay base a =
      ⟨Except.ok (validatedJob self (t.jobs (base + (a + k))).data),
       a + k + 1, List.replicate k retryDelay⟩ := by
  intro k
  induction k with
  | zero =>
    intro a hm _htr h200 hval
    simpa using refreshGo_success self t maxRetries retryDelay base a
      (by omega) (by simpa using h200) (by simpa using hval)
  | succ k ih =>
    intro a hm htr h200 hval
    have hlt : a < maxRetries - 1 := by omega
    rw [refreshGo_transient_continue self t maxRetries retryDelay base a hlt
      (htr a (Nat.le_refl a) (by omega))]
    have harr : a + 1 + k = a + (k + 1) := by omega
    rw [ih (a + 1) (by omega) (fun i h1 h2 => htr i (by omega) (by omega))
      (by rw [harr]; exact h200) (by rw [harr]; exact hval)]
    simp [harr, List.replicate_succ]

/-! ### Claim theorems about `refresh` -/

/-- C1: against a status-query trace with fewer than the retry bound
(default 10) consecutive transient responses followed by a success,
`Job.refresh()` succeeds after exactly those attempts; with transient faults
on every attempt up to the bound it raises `PulseAPIError` — a transport
error distinct from the `RuntimeError` job-failed signal — after issuing
exactly the configured bound of status queries. -/
theorem C1_refresh_retry_protocol (self : Job) (t : Transport) (base : Nat) :
    (∀ k, k < 10 →
      (∀ i, i < k → isTransient (t.jobs (base + i))) →
      (t.jobs (base + k)).status_code = 200 →
      (t.jobs (base + k)).data.jobStatus ∈ jobStatusLiteral →
      (Job.refresh self t base).outcome =
          Except.ok (validatedJob self (t.jobs (base + k)).data) ∧
        (Job.refresh self t base).attempts = k + 1) ∧
    ((∀ i, i < 10 → isTransient (t.jobs (base + i))) →
      (Job.refresh self t base).outcome =
          Except.error (PyError.pulseAPIError ((t.jobs (base + 9)).status_code)) ∧
        (∀ m, PyError.pulseAPIError ((t.jobs (base + 9)).status_code) ≠
            PyError.runtimeError m) ∧
        (Job.refresh self t base).attempts = 10) := by
  constructor
  · intro k hk htr h200 hval
    have h := refreshGo_succeeds_after self t 10 10 base k 0 (by omega)
      (fun i _ h2 => htr i (by omega)) (by simpa using h200) (by simpa using hval)
    simp only [Nat.zero_add] at h
    rw [Job.refresh, h]
    exact ⟨rfl, rfl⟩
  · intro htr
    have h := refreshGo_all_transient self t 10 10 base 9 0 (by omega) (by omega)
      (fun i _ h2 => htr i h2)
    rw [Job.refresh, h]
    refine ⟨rfl, ?_, rfl⟩
    intro m hne
    cases hne

def pendingData : JobData := { jobStatus := "pending" }

def c1Transport : Transport :=
  { jobs := fun n => if n < 3 then ⟨500, pendingData⟩ else ⟨200, pendingData⟩,
    fetch := fun _ => ⟨200, ""⟩ }

def c1BadTransport : Transport :=
  { jobs := fun _ => ⟨404, pendingData⟩, fetch := fun _ => ⟨200, ""⟩ }

def j0 : Job := { id := "job-1", status := "pending" }

theorem C1_refresh_retry_protocol_witness :
    (Job.refresh j0 c1Transport 0).outcome =
        Except.ok (validatedJob j0 pendingData) ∧
      (Job.refresh j0 c1Transport 0).attempts = 4 ∧
      (Job.refresh j0 c1BadTransport 0).outcome =
        Except.error (PyError.pulseAPIError 404) ∧
      (Job.refresh j0 c1BadTransport 0).attempts = 10 := by
  have h1 := (C1_refresh_retry_protocol j0 c1Transport 0).1 3 (by omega)
    (fun i hi => by interval_cases i <;> decide)
    (by decide) (by decide)
  have h2 := (C1_refresh_retry_protocol j0 c1BadTransport 0).2
    (fun i hi => by interval_cases i <;> decide)
  exact ⟨h1.1, h1.2, h2.1, h2.2.2⟩

/-- C6: on a successful status query, the `Job` that `refresh` returns takes
its `status`, `result_url` and `message` entirely from the response body —
last-write-wins, no merging with the previous local values (only a missing
`jobId` is backfilled from the polling job's id). -/
theorem C6_refresh_replaces_state (self : Job) (t : Transport) (base : Nat)
    (h200 : (t.jobs base).status_code = 200)
    (hval : (t.jobs base).data.jobStatus ∈ jobStatusLiteral) :
    (Job.refresh self t base).outcome =
      Except.ok { id := (t.jobs base).data.jobId.getD self.id,
                  status := (t.jobs base).data.jobStatus,
                  message := (t.jobs base).data.message,
                  result_url := (t.jobs base).data.resultUrl } := by
  have h := refreshGo_success self t 10 10 base 0 (by omega)
    (by simpa using h200) (by simpa using hval)
  simp only [Nat.add_zero] at h
  rw [Job.refresh, h]
  rfl

def c6Data : JobData :=
  { jobId := some "job-9", jobStatus := "completed",
    message := some "done", resultUrl := some "https://r/9" }

def c6Transport : Transport :=
  { jobs := fun _ => ⟨200, c6Data⟩, fetch := fun _ => ⟨200, ""⟩ }

def c6Stale : Job :=
  { id := "job-9", status := "pending", message := some "old",
    result_url := some "https://old" }

theorem C6_refresh_replaces_state_witness :
    (Job.refresh c6Stale c6Transport 0).outcome =
      Except.ok { id := "job-9", status := "completed",
                  message := some "done", result_url := some "https://r/9" } := by
  have h := C6_refresh_replaces_state c6Stale c6Transport 0 (by decide) (by decide)
  simpa using h

/-- C10: `refresh` treats exactly the HTTP status codes 500 and 404 as
transient — sleeping `retry_delay` once before proceeding to the next attempt
whenever one remains — while any other non-200 response raises
`PulseAPIError` on that first response, after a single attempt and with no
sleeps. -/
theorem C10_transient_codes (self : Job) (t : Transport) (base : Nat)
    (maxRetries : Nat) (retryDelay : ℚ) :
    (isTransient (t.jobs base) → 1 < maxRetries →
      Job.refresh self t base maxRetries retryDelay =
        ⟨(refreshGo self t maxRetries retryDelay base 1).outcome,
         (refreshGo self t maxRetries retryDelay base 1).attempts,
         retryDelay :: (refreshGo self t maxRetries retryDelay base 1).sleeps⟩) ∧
    (¬ isTransient (t.jobs base) → (t.jobs base).status_code ≠ 200 →
      0 < maxRetries →
      Job.refresh self t base maxRetries retryDelay =
        ⟨Except.error (PyError.pulseAPIError ((t.jobs base).status_code)),
         1, []⟩) := by
  constructor
  · intro htr hm
    have h := refreshGo_transient_continue self t maxRetries retryDelay base 0
      (by omega) (by simpa using htr)
    rw [Job.refresh, h]
  · intro hnt hne hm
    have h := refreshGo_hard_error self t maxRetries retryDelay base 0
      (by omega) (by simpa using hnt) (by simpa using hne)
    rw [Job.refresh, h]
    simp

def c10HardTransport : Transport :=
  { jobs := fun _ => ⟨403, pendingData⟩, fetch := fun _ => ⟨200, ""⟩ }

theorem C10_transient_codes_witness :
    Job.refresh j0 c1BadTransport 0 10 10 =
      ⟨(refreshGo j0 c1BadTransport 10 10 0 1).outcome,
       (refreshGo j0 c1BadTransport 10 10 0 1).attempts,
       (10 : ℚ) :: (refreshGo j0 c1BadTransport 10 10 0 1).sleeps⟩ ∧
    Job.refresh j0 c10HardTransport 0 10 10 =
      ⟨Except.error (PyError.pulseAPIError 403), 1, []⟩ := by
  constructor
  · exact (C10_transient_codes j0 c1BadTransport 0 10 10).1 (by decide) (by omega)
  · exact (C10_transient_codes j0 c10HardTransport 0 10 10).2 (by decide)
      (by decide) (by omega)

/-! ### Facts about `wait` -/

/-- A `refresh()` call with the default arguments against an immediately
successful status query with an admissible status. -/
theorem refresh_default_200 (self : Job) (t : Transport) (base : Nat)
    (h200 : (t.jobs base).status_code = 200)
    (hval : (t.jobs base).data.jobStatus ∈ jobStatusLiteral) :
    Job.refresh self t base =
      ⟨Except.ok (validatedJob self (t.jobs base).data), 1, []⟩ := by
  have h := refreshGo_success self t 10 10 base 0 (by omega)
    (by simpa using h200) (by simpa using hval)
  simpa [Job.refresh] using h

/-- If every status query reports a pending job and some clock reading within
the remaining iteration budget exceeds the timeout, the polling loop of
`wait` raises `TimeoutError`. -/
theorem waitGo_pending_times_out (self : Job) (env : WaitEnv)
    (timeout start : ℚ)
    (hp : ∀ k, (env.t.jobs k).status_code = 200 ∧
      (env.t.jobs k).data.jobStatus = "pending") :
    ∀ fuel base tick, (∃ j, j < fuel ∧ env.clock (tick + j) - start > timeout) →
    waitGo self env timeout start base tick fuel =
      some (Except.error (PyError.timeoutError (timeoutMsg self timeout))) := by
  intro fuel
  induction fuel with
  | zero =>
    intro base tick h
    obtain ⟨j, hj, _⟩ := h
    omega
  | succ fuel ih =>
    intro base tick h
    obtain ⟨j, hj, hgt⟩ := h
    have h200 := (hp base).1
    have hst := (hp base).2
    have hr : Job.refresh self env.t base =
        ⟨Except.ok (validatedJob self (env.t.jobs base).data), 1, []⟩ :=
      refresh_default_200 self env.t base h200 (by rw [hst]; decide)
    have hjobst : (validatedJob self (env.t.jobs base).data).status = "pending" := hst
    by_cases hc : env.clock tick - start > timeout
    · simp [waitGo, hr, hjobst, hc]
    · have hj0 : j ≠ 0 := by
        intro h0
        exact hc (by simpa [h0] using hgt)
      have hnext : ∃ j2, j2 < fuel ∧ env.clock (tick + 1 + j2) - start > timeout := by
        refine ⟨j - 1, by omega, ?_⟩
        have harr : tick + 1 + (j - 1) = tick + j := by omega
        rw [harr]
        exact hgt
      simp only [waitGo, hr, hjobst]
      simp [hc]
      exact ih (base + 1) (tick + 1) hnext

/-! ### Claim theorems about `wait` -/

/-- C3: on a job whose status queries keep answering `pending` while the wall
clock passes the timeout within the modelled iteration budget, `wait` raises
the `TimeoutError` timeout signal, which is distinct both from the
`RuntimeError` failure signal and from the `PulseAPIError` transport signal;
the loop performs no state-changing remote operation, so the job stays in its
last observed non-terminal state. -/
theorem C3_wait_timeout_distinct (self : Job) (env : WaitEnv) (timeout : ℚ)
    (fuel : Nat)
    (hp : ∀ k, (env.t.jobs k).status_code = 200 ∧
      (env.t.jobs k).data.jobStatus = "pending")
    (hcl : ∃ j, 1 ≤ j ∧ j ≤ fuel ∧ env.clock j - env.clock 0 > timeout) :
    Job.wait self env fuel timeout =
      some (Except.error (PyError.timeoutError (timeoutMsg self timeout))) ∧
    (∀ m, PyError.timeoutError (timeoutMsg self timeout) ≠
      PyError.runtimeError m) ∧
    (∀ c, PyError.timeoutError (timeoutMsg self timeout) ≠
      PyError.pulseAPIError c) := by
  obtain ⟨j, h1, h2, h3⟩ := hcl
  cases fuel with
  | zero => omega
  | succ fuel =>
    refine ⟨?_, fun m h => PyError.noConfusion h, fun c h => PyError.noConfusion h⟩
    rw [Job.wait]
    apply waitGo_pending_times_out self env timeout (env.clock 0) hp (fuel + 1) 0 1
    refine ⟨j - 1, by omega, ?_⟩
    have harr : 1 + (j - 1) = j := by omega
    rw [harr]
    exact h3

def pendingTransport : Transport :=
  { jobs := fun _ => ⟨200, pendingData⟩, fetch := fun _ => ⟨200, ""⟩ }

def c3Env : WaitEnv := { t := pendingTransport, clock := fun n => (n : ℚ) }

theorem C3_wait_timeout_distinct_witness :
    Job.wait j0 c3Env 1 0 =
      some (Except.error (PyError.timeoutError (timeoutMsg j0 0))) := by
  have h := C3_wait_timeout_distinct j0 c3Env 0 1 (fun k => ⟨rfl, rfl⟩)
    ⟨1, by omega, by omega, by norm_num [c3Env]⟩
  exact h.1

/-- C4: when the polled status reaches the terminal state `failed`, `wait`
raises a `RuntimeError` whose message carries the remote-provided error
message, with the empty string substituted as the default when the remote
message is absent. -/
theorem C4_wait_failed_raises (self : Job) (env : WaitEnv) (fuel : Nat)
    (timeout : ℚ)
    (h200 : (env.t.jobs 0).status_code = 200)
    (hst : (env.t.jobs 0).data.jobStatus = "failed") :
    (∀ msg, (env.t.jobs 0).data.message = some msg →
      Job.wait self env (fuel + 1) timeout =
        some (Except.error (PyError.runtimeError
          ("Job " ++ self.id ++ " " ++ "failed" ++ ": " ++ msg)))) ∧
    ((env.t.jobs 0).data.message = none →
      Job.wait self env (fuel + 1) timeout =
        some (Except.error (PyError.runtimeError
          ("Job " ++ self.id ++ " " ++ "failed" ++ ": " ++ "")))) := by
  have hr : Job.refresh self env.t 0 =
      ⟨Except.ok (validatedJob self (env.t.jobs 0).data), 1, []⟩ :=
    refresh_default_200 self env.t 0 h200 (by rw [hst]; decide)
  constructor
  · intro msg hm
    simp [Job.wait, waitGo, hr, validatedJob, hst, failureMsg, hm]
  · intro hm
    simp [Job.wait, waitGo, hr, validatedJob, hst, failureMsg, hm]

def failedData : JobData :=
  { jobId := some "job-1", jobStatus := "failed", message := some "boom" }

def failedEnv : WaitEnv :=
  { t := { jobs := fun _ => ⟨200, failedData⟩, fetch := fun _ => ⟨200, ""⟩ },
    clock := fun n => (n : ℚ) }

def failedNoMsgEnv : WaitEnv :=
  { t := { jobs := fun _ => ⟨200, { failedData with message := none }⟩,
           fetch := fun _ => ⟨200, ""⟩ },
    clock := fun n => (n : ℚ) }

theorem C4_wait_failed_raises_witness :
    Job.wait j0 failedEnv 1 180 =
      some (Except.error (PyError.runtimeError "Job job-1 failed: boom")) ∧
    Job.wait j0 failedNoMsgEnv 1 180 =
      some (Except.error (PyError.runtimeError "Job job-1 failed: ")) := by
  constructor
  · have h := (C4_wait_failed_raises j0 failedEnv 0 180 rfl rfl).1 "boom" rfl
    simpa using h
  · have h := (C4_wait_failed_raises j0 failedNoMsgEnv 0 180 rfl rfl).2 rfl
    simpa using h

/-- C5: a job polled as `completed` with a truthy result location resolves by
fetching that location — `wait` returns the fetched artifact, and a non-200
fetch response raises `PulseAPIError`; a job polled as `completed` with no
result location makes `wait` return the job object itself. -/
theorem C5_wait_completed_resolution (self : Job) (env : WaitEnv) (fuel : Nat)
    (timeout : ℚ)
    (h200 : (env.t.jobs 0).status_code = 200)
    (hst : (env.t.jobs 0).data.jobStatus = "completed") :
    (∀ url, (env.t.jobs 0).data.resultUrl = some url → url ≠ "" →
      ((env.t.fetch url).status_code = 200 →
        Job.wait self env (fuel + 1) timeout =
          some (Except.ok (WaitValue.artifact (env.t.fetch url).body))) ∧
      ((env.t.fetch url).status_code ≠ 200 →
        Job.wait self env (fuel + 1) timeout =
          some (Except.error
            (PyError.pulseAPIError ((env.t.fetch url).status_code))))) ∧
    ((env.t.jobs 0).data.resultUrl = none →
      Job.wait self env (fuel + 1) timeout =
        some (Except.ok (WaitValue.job (validatedJob self (env.t.jobs 0).data)))) := by
  have hr : Job.refresh self env.t 0 =
      ⟨Except.ok (validatedJob self (env.t.jobs 0).data), 1, []⟩ :=
    refresh_default_200 self env.t 0 h200 (by rw [hst]; decide)
  constructor
  · intro url hurl hne
    constructor
    · intro hf
      simp [Job.wait, waitGo, hr, validatedJob, hst, hurl, hne, hf]
    · intro hf
      simp [Job.wait, waitGo, hr, validatedJob, hst, hurl, hne, hf]
  · intro hurl
    simp [Job.wait, waitGo, hr, validatedJob, hst, hurl]

def completedData : JobData :=
  { jobId := some "job-1", jobStatus := "completed",
    resultUrl := some "https://r/1" }

def completedEnv : WaitEnv :=
  { t := { jobs := fun _ => ⟨200, completedData⟩,
           fetch := fun u => if u = "https://r/1" then ⟨200, "artifact-1"⟩
                             else ⟨404, ""⟩ },
    clock := fun n => (n : ℚ) }

def completedBadFetchEnv : WaitEnv :=
  { t := { jobs := fun _ => ⟨200, completedData⟩, fetch := fun _ => ⟨503, ""⟩ },
    clock := fun n => (n : ℚ) }

def completedNoUrlEnv : WaitEnv :=
  { t := { jobs := fun _ => ⟨200, { completedData with resultUrl := none }⟩,
           fetch := fun _ => ⟨200, ""⟩ },
    clock := fun n => (n : ℚ) }

theorem C5_wait_completed_resolution_witness :
    Job.wait j0 completedEnv 1 180 =
      some (Except.ok (WaitValue.artifact "artifact-1")) ∧
    Job.wait j0 completedBadFetchEnv 1 180 =
      some (Except.error (PyError.pulseAPIError 503)) ∧
    Job.wait j0 completedNoUrlEnv 1 180 =
      some (Except.ok (WaitValue.job
        { id := "job-1", status := "completed" })) := by
  refine ⟨?_, ?_, ?_⟩
  · have h := ((C5_wait_completed_resolution j0 completedEnv 0 180 rfl rfl).1
      "https://r/1" rfl (by decide)).1 (by decide)
    simpa using h
  · have h := ((C5_wait_completed_resolution j0 completedBadFetchEnv 0 180 rfl rfl).1
      "https://r/1" rfl (by decide)).2 (by decide)
    simpa using h
  · have h := (C5_wait_completed_resolution j0 completedNoUrlEnv 0 180 rfl rfl).2 rfl
    simpa [validatedJob] using h

/-! ### The status vocabulary (claim C2) -/

theorem model_validate_patch_invalid (selfId : String) (d : JobData)
    (hs : d.jobStatus ∉ jobStatusLiteral) :
    model_validate (patchJobId selfId d) = none := by
  cases hj : d.jobId with
  | none => simp [patchJobId, model_validate, hj, hs]
  | some i => simp [patchJobId, model_validate, hj, hs]

/-- A 200 response whose status is outside the model's literal fails
pydantic validation. -/
theorem refreshGo_invalid_status (self : Job) (t : Transport)
    (maxRetries : Nat) (retryDelay : ℚ) (base attempt : Nat)
    (h1 : attempt < maxRetries)
    (h200 : (t.jobs (base + attempt)).status_code = 200)
    (hval : (t.jobs (base + attempt)).data.jobStatus ∉ jobStatusLiteral) :
    refreshGo self t maxRetries retryDelay base attempt =
      ⟨Except.error PyError.validationError, attempt + 1, []⟩ := by
  have hnt : ¬ ((t.jobs (base + attempt)).status_code = 500 ∨
      (t.jobs (base + attempt)).status_code = 404) := by omega
  rw [refreshGo]
  simp [h1, hnt, h200, model_validate_patch_invalid _ _ hval]

def errData : JobData := { jobId := some "job-e", jobStatus := "error" }

def errEnv : WaitEnv :=
  { t := { jobs := fun _ => ⟨200, errData⟩, fetch := fun _ => ⟨200, ""⟩ },
    clock := fun n => (n : ℚ) }

def queuedData : JobData := { jobId := some "job-q", jobStatus := "queued" }

def queuedTransport : Transport :=
  { jobs := fun _ => ⟨200, queuedData⟩, fetch := fun _ => ⟨200, ""⟩ }

/-- C2, counterexample: the status vocabulary of the code is not
`queued`/`running`/`completed`/`failed`. A remote response reporting
`jobStatus = "error"` is accepted by `refresh` and stored as the `Job`'s
status — so `error` is a remote-reported state outside the claimed set —
while a response reporting `jobStatus = "queued"` fails validation; a job in
the stored `error` state moreover makes `wait` raise the job-failure signal
rather than keep polling. -/
theorem C2_statuses_counterexample :
    (Job.refresh j0 errEnv.t 0).outcome =
      Except.ok { id := "job-e", status := "error" } ∧
    "error" ∉ ["queued", "running", "completed", "failed"] ∧
    (Job.refresh j0 queuedTransport 0).outcome =
      Except.error PyError.validationError ∧
    Job.wait j0 errEnv 1 180 =
      some (Except.error (PyError.runtimeError "Job job-1 error: ")) := by
  have hr : Job.refresh j0 errEnv.t 0 =
      ⟨Except.ok (validatedJob j0 errData), 1, []⟩ :=
    refresh_default_200 j0 errEnv.t 0 rfl (by decide)
  have hq : Job.refresh j0 queuedTransport 0 =
      ⟨Except.error PyError.validationError, 1, []⟩ := by
    have h := refreshGo_invalid_status j0 queuedTransport 10 10 0 0 (by omega)
      rfl (by decide)
    simpa [Job.refresh] using h
  refine ⟨by rw [hr]; rfl, by decide, by rw [hq], ?_⟩
  simp only [Job.wait, waitGo, hr]
  simp [validatedJob, errData, failureMsg, j0]

/-- C2, amended: every status a `Job` can store is one of exactly `pending`,
`completed`, `error`, `failed`; each of those four — `error` included — is a
remote-reported state that validation stores verbatim on the `Job`; and a job
polled in the `error` state is treated by `wait` as terminal, raising the
job-failure `RuntimeError` exactly as for `failed`. -/
theorem C2_statuses_amended :
    (∀ d j, model_validate d = some j → j.status ∈ jobStatusLiteral) ∧
    (∀ s, s ∈ jobStatusLiteral → ∀ i,
      model_validate { jobId := some i, jobStatus := s } =
        some { id := i, status := s }) ∧
    jobStatusLiteral = ["pending", "completed", "error", "failed"] ∧
    (∀ (self : Job) (env : WaitEnv) (fuel : Nat) (timeout : ℚ),
      (env.t.jobs 0).status_code = 200 →
      (env.t.jobs 0).data.jobStatus = "error" →
      Job.wait self env (fuel + 1) timeout =
        some (Except.error (PyError.runtimeError
          (failureMsg self (validatedJob self (env.t.jobs 0).data))))) := by
  refine ⟨?_, ?_, rfl, ?_⟩
  · intro d j h
    cases hj : d.jobId with
    | none => simp [model_validate, hj] at h
    | some i =>
      by_cases hs : d.jobStatus ∈ jobStatusLiteral
      · simp [model_validate, hj, hs] at h
        cases h
        exact hs
      · simp [model_validate, hj, hs] at h
  · intro s hs i
    simp [model_validate, hs]
  · intro self env fuel timeout h200 hst
    have hr : Job.refresh self env.t 0 =
        ⟨Except.ok (validatedJob self (env.t.jobs 0).data), 1, []⟩ :=
      refresh_default_200 self env.t 0 h200 (by rw [hst]; decide)
    simp [Job.wait, waitGo, hr, validatedJob, hst, failureMsg]

theorem C2_statuses_amended_witness :
    model_validate { jobId := some "j", jobStatus := "error" } =
      some { id := "j", status := "error" } ∧
    Job.wait j0 errEnv 1 180 =
      some (Except.error (PyError.runtimeError
        (failureMsg j0 (validatedJob j0 errData)))) := by
  constructor
  · exact C2_statuses_amended.2.1 "error" (by decide) "j"
  · exact C2_statuses_amended.2.2.2 j0 errEnv 0 180 rfl rfl

/-! ### Dependency graph and scheduler (modelled from the spec)

The repository's scheduler (the `Analyzer` / DSL workflow engine described in
§4.1 of the specification) is not among the provided source files — only its
documentation and example notebooks are. The definitions below are therefore
modelled from the specification text. -/

/-- Modelled from the spec: a declared workflow step — an identifier unique
within the workflow and its declared dependencies, each naming another step's
output (§3 "Step"; the workflow's implicit primary-dataset input needs no
scheduling and is omitted). A workflow is the declaration-ordered list of its
steps. -/
structure Step where
  id : String
  deps : List String
deriving Repr, DecidableEq

/-- Modelled from the spec: the configuration error raised at graph-build
time for a cyclic or unresolvable dependency structure (§7). -/
inductive ConfigError where
  | cyclicOrUnresolved : ConfigError
deriving Repr, DecidableEq

/-- A step is ready when each of its declared dependencies has already been
scheduled. -/
def ready (done : List String) (s : Step) : Bool :=
  s.deps.all fun d => done.contains d

/-- Modelled from the spec: Kahn-style scheduling with ties broken by
declaration order (§4.1 "Ordering") — at every stage the declaration-earliest
ready step among those not yet scheduled is emitted next; if no step is ready
while steps remain, graph build fails with a configuration error. `fuel` is
the (sufficient) bound `w.length` on the number of stages. -/
def scheduleAux : Nat → List Step → List String → Except ConfigError (List Step)
  | 0, remaining, _done =>
    if remaining.isEmpty then Except.ok []
    else Except.error ConfigError.cyclicOrUnresolved
  | fuel + 1, remaining, done =>
    if remaining.isEmpty then Except.ok []
    else
      match remaining.find? (ready done) with
      | none => Except.error ConfigError.cyclicOrUnresolved
      | some s =>
        match scheduleAux fuel (remaining.erase s) (s.id :: done) with
        | Except.ok rest => Except.ok (s :: rest)
        | Except.error e => Except.error e

/-- Modelled from the spec: build the execution order for a workflow given in
declaration order. -/
def schedule (w : List Step) : Except ConfigError (List Step) :=
  scheduleAux w.length w []

/-- Modelled from the spec: a run first builds the execution order and only
then executes, one remote call per scheduled step; a build failure aborts
before any remote call is issued. The second component counts remote calls. -/
def runWorkflow (w : List Step) : Except ConfigError (List String) × Nat :=
  match schedule w with
  | Except.error e => (Except.error e, 0)
  | Except.ok order => (Except.ok (order.map Step.id), order.length)

/-- `a` depends directly on `b`: some step with identifier `a` declares `b`
among its dependencies. -/
def dependsDirect (w : List Step) (a b : String) : Prop :=
  ∃ s, s ∈ w ∧ s.id = a ∧ b ∈ s.deps

/-- The workflow contains a dependency cycle. -/
def HasCycle (w : List Step) : Prop :=
  ∃ a, Relation.TransGen (dependsDirect w) a a

/-- Every declared dependency resolves to a declared step. -/
def Resolvable (w : List Step) : Prop :=
  ∀ s ∈ w, ∀ d ∈ s.deps, ∃ s2, s2 ∈ w ∧ s2.id = d

/-- The identifiers of a list of steps, in order. -/
def idsOf (w : List Step) : List String := w.map Step.id

/-- Topological validity of an execution order: every step appears after all
of its dependencies. -/
def TopoValid (o : List Step) : Prop :=
  ∀ pre s post, o = pre ++ s :: post → ∀ d ∈ s.deps, d ∈ idsOf pre

theorem ready_iff (done : List String) (s : Step) :
    ready done s = true ↔ ∀ d ∈ s.deps, d ∈ done := by
  simp [ready]

/-- Soundness of the scheduling loop: every emitted step's dependencies lie
in the already-done set or among the identifiers emitted before it. -/
theorem scheduleAux_sound :
    ∀ fuel remaining done o, scheduleAux fuel remaining done = Except.ok o →
    ∀ pre s post, o = pre ++ s :: post → ∀ d ∈ s.deps, d ∈ done ∨ d ∈ idsOf pre := by
  intro fuel
  induction fuel with
  | zero =>
    intro remaining done o h pre s post heq d hd
    by_cases hr : remaining.isEmpty <;> simp [scheduleAux, hr] at h
    subst h
    simp at heq
  | succ fuel ih =>
    intro remaining done o h pre s post heq d hd
    by_cases hr : remaining.isEmpty
    · simp [scheduleAux, hr] at h
      subst h
      simp at heq
    · simp only [scheduleAux, if_neg hr] at h
      cases hfind : remaining.find? (ready done) with
      | none => simp [hfind] at h
      | some s0 =>
        simp only [hfind] at h
        cases hrec : scheduleAux fuel (remaining.erase s0) (s0.id :: done) with
        | error e => simp [hrec] at h
        | ok rest =>
          simp only [hrec, Except.ok.injEq] at h
          subst h
          cases pre with
          | nil =>
            rw [List.nil_append] at heq
            injection heq with h1 h2
            subst h1
            left
            have hready := List.find?_some hfind
            exact (ready_iff done s0).mp hready d hd
          | cons p pre2 =>
            rw [List.cons_append] at heq
            injection heq with h1 h2
            subst h1
            have := ih (remaining.erase s0) (s0.id :: done) rest hrec pre2 s post
              h2 d hd
            rcases this with hdone | hpre
            · rcases List.mem_cons.mp hdone with rfl | hdone2
              · right
                simp [idsOf]
              · left
                exact hdone2
            · right
              simp [idsOf] at hpre ⊢
              exact Or.inr hpre

/-- Every step still to schedule ends up in a successful output. -/
theorem scheduleAux_complete :
    ∀ fuel remaining done o, scheduleAux fuel remaining done = Except.ok o →
    ∀ s ∈ remaining, s ∈ o := by
  intro fuel
  induction fuel with
  | zero =>
    intro remaining done o h s hs
    by_cases hr : remaining.isEmpty <;> simp [scheduleAux, hr] at h
    subst h
    rw [List.isEmpty_iff] at hr
    subst hr
    cases hs
  | succ fuel ih =>
    intro remaining done o h s hs
    by_cases hr : remaining.isEmpty
    · rw [List.isEmpty_iff] at hr
      subst hr
      cases hs
    · simp only [scheduleAux, if_neg hr] at h
      cases hfind : remaining.find? (ready done) with
      | none => simp [hfind] at h
      | some s0 =>
        simp only [hfind] at h
        cases hrec : scheduleAux fuel (remaining.erase s0) (s0.id :: done) with
        | error e => simp [hrec] at h
        | ok rest =>
          simp only [hrec, Except.ok.injEq] at h
          subst h
          by_cases hss : s = s0
          · subst hss
            exact List.mem_cons_self s rest
          · have : s ∈ remaining.erase s0 := by
              rw [List.mem_erase_of_ne hss]
              exact hs
            exact List.mem_cons_of_mem s0 (ih _ _ _ hrec s this)

/-- Every step a successful output contains came from the remaining list. -/
theorem scheduleAux_subset :
    ∀ fuel remaining done o, scheduleAux fuel remaining done = Except.ok o →
    ∀ s ∈ o, s ∈ remaining := by
  intro fuel
  induction fuel with
  | zero =>
    intro remaining done o h s hs
    by_cases hr : remaining.isEmpty <;> simp [scheduleAux, hr] at h
    subst h
    cases hs
  | succ fuel ih =>
    intro remaining done o h s hs
    by_cases hr : remaining.isEmpty
    · simp [scheduleAux, hr] at h
      subst h
      cases hs
    · simp only [scheduleAux, if_neg hr] at h
      cases hfind : remaining.find? (ready done) with
      | none => simp [hfind] at h
      | some s0 =>
        simp only [hfind] at h
        cases hrec : scheduleAux fuel (remaining.erase s0) (s0.id :: done) with
        | error e => simp [hrec] at h
        | ok rest =>
          simp only [hrec, Except.ok.injEq] at h
          subst h
          rcases List.mem_cons.mp hs with rfl | hs2
          · exact List.mem_of_find?_eq_some hfind
          · exact List.erase_subset s0 remaining (ih _ _ _ hrec s hs2)

/-- If steps remain but none of them is ready, the workflow has a dependency
cycle (given that dependencies resolve and every unscheduled step is still
among the remaining ones). -/
theorem stuck_has_cycle (w remaining : List Step) (done : List String)
    (hsub : ∀ s ∈ remaining, s ∈ w)
    (hcover : ∀ s ∈ w, s ∈ remaining ∨ s.id ∈ done)
    (hres : Resolvable w)
    (hne : remaining ≠ [])
    (hstuck : ∀ s ∈ remaining, ¬ ready done s = true) :
    HasCycle w := by
  classical
  have hnext : ∀ s ∈ remaining, ∃ s2, s2 ∈ remaining ∧
      dependsDirect w s.id s2.id := by
    intro s hs
    have hnotall : ¬ ∀ d ∈ s.deps, d ∈ done := fun hall =>
      hstuck s hs ((ready_iff done s).mpr hall)
    push_neg at hnotall
    obtain ⟨d, hd, hdnot⟩ := hnotall
    obtain ⟨s2, hs2w, hs2id⟩ := hres s (hsub s hs) d hd
    have hs2rem : s2 ∈ remaining := by
      rcases hcover s2 hs2w with h | h
      · exact h
      · rw [hs2id] at h
        exact absurd h hdnot
    exact ⟨s2, hs2rem, s, hsub s hs, rfl, by rw [hs2id]; exact hd⟩
  obtain ⟨s₀, hs₀⟩ := List.exists_mem_of_ne_nil remaining hne
  have hchoice : ∀ p : {s // s ∈ remaining}, ∃ q : {s // s ∈ remaining},
      dependsDirect w p.1.id q.1.id := by
    intro p
    obtain ⟨s2, h1, h2⟩ := hnext p.1 p.2
    exact ⟨⟨s2, h1⟩, h2⟩
  let F : {s // s ∈ remaining} → {s // s ∈ remaining} :=
    fun p => (hchoice p).choose
  have hF : ∀ p, dependsDirect w p.1.id (F p).1.id :=
    fun p => (hchoice p).choose_spec
  let g : Nat → {s // s ∈ remaining} := fun n => F^[n] ⟨s₀, hs₀⟩
  have hgchain : ∀ n, dependsDirect w (g n).1.id (g (n + 1)).1.id := by
    intro n
    have hsucc : g (n + 1) = F (g n) := Function.iterate_succ_apply' F n _
    rw [hsucc]
    exact hF (g n)
  have hchainlt : ∀ m n, n < m →
      Relation.TransGen (dependsDirect w) (g n).1.id (g m).1.id := by
    intro m
    induction m with
    | zero => intro n hn; exact absurd hn (Nat.not_lt_zero n)
    | succ m ihm =>
      intro n hn
      rcases Nat.lt_succ_iff_lt_or_eq.mp hn with h | h
      · exact (ihm n h).tail (hgchain m)
      · subst h
        exact Relation.TransGen.single (hgchain n)
  have hmaps : ∀ n ∈ Finset.range (remaining.length + 1),
      (g n).1 ∈ remaining.toFinset := by
    intro n _
    exact List.mem_toFinset.mpr (g n).2
  have hcard : remaining.toFinset.card < (Finset.range (remaining.length + 1)).card := by
    rw [Finset.card_range]
    exact Nat.lt_succ_of_le (List.toFinset_card_le remaining)
  obtain ⟨i, hi, j, hj, hij, heq⟩ :=
    Finset.exists_ne_map_eq_of_card_lt_of_maps_to hcard hmaps
  have hcyc : ∀ i j, i < j → (g i).1 = (g j).1 → HasCycle w := by
    intro i j hlt he
    refine ⟨(g i).1.id, ?_⟩
    have h := hchainlt j i hlt
    rw [← he] at h
    exact h
  rcases Nat.lt_trichotomy i j with h | h | h
  · exact hcyc i j h heq
  · exact absurd h hij
  · exact hcyc j i h heq.symm

/-- A dependency-decreasing rank certifies acyclicity; it lets concrete
workflows discharge `¬ HasCycle` by `decide`. -/
theorem no_cycle_of_rank (w : List Step) (rank : String → Nat)
    (h : ∀ s ∈ w, ∀ d ∈ s.deps, rank d < rank s.id) : ¬ HasCycle w := by
  have hstep : ∀ a b, dependsDirect w a b → rank b < rank a := by
    rintro a b ⟨s, hsw, rfl, hbd⟩
    exact h s hsw b hbd
  rintro ⟨a, ha⟩
  have hmono : ∀ x y, Relation.TransGen (dependsDirect w) x y →
      rank y < rank x := by
    intro x y hxy
    induction hxy with
    | single h1 => exact hstep _ _ h1
    | tail _ h2 ih => exact Nat.lt_trans (hstep _ _ h2) ih
  exact absurd (hmono a a ha) (Nat.lt_irrefl _)

/-- Kahn completeness: an acyclic, resolvable workflow always schedules. -/
theorem scheduleAux_ok (w : List Step) (hres : Resolvable w)
    (hacyc : ¬ HasCycle w) :
    ∀ fuel remaining done, remaining.length ≤ fuel →
    (∀ s ∈ remaining, s ∈ w) →
    (∀ s ∈ w, s ∈ remaining ∨ s.id ∈ done) →
    ∃ o, scheduleAux fuel remaining done = Except.ok o := by
  intro fuel
  induction fuel with
  | zero =>
    intro remaining done hlen _hsub _hcover
    have hnil : remaining = [] := List.eq_nil_of_length_eq_zero (Nat.le_zero.mp hlen)
    subst hnil
    exact ⟨[], by simp [scheduleAux]⟩
  | succ fuel ih =>
    intro remaining done hlen hsub hcover
    by_cases hr : remaining.isEmpty
    · exact ⟨[], by simp [scheduleAux, hr]⟩
    · have hne : remaining ≠ [] := by simpa [List.isEmpty_iff] using hr
      cases hfind : remaining.find? (ready done) with
      | none =>
        exfalso
        apply hacyc
        apply stuck_has_cycle w remaining done hsub hcover hres hne
        intro s hs hready
        exact List.find?_eq_none.mp hfind s hs hready
      | some s0 =>
        have hs0mem := List.mem_of_find?_eq_some hfind
        have hlen2 : (remaining.erase s0).length ≤ fuel := by
          rw [List.length_erase_of_mem hs0mem]
          have : 1 ≤ remaining.length := List.length_pos.mpr hne
          omega
        have hsub2 : ∀ s ∈ remaining.erase s0, s ∈ w :=
          fun s hs => hsub s (List.erase_subset s0 remaining hs)
        have hcover2 : ∀ s ∈ w, s ∈ remaining.erase s0 ∨ s.id ∈ s0.id :: done := by
          intro s hsw
          rcases hcover s hsw with hrem | hdone
          · by_cases hss : s = s0
            · subst hss
              exact Or.inr (List.mem_cons_self _ _)
            · exact Or.inl ((List.mem_erase_of_ne hss).mpr hrem)
          · exact Or.inr (List.mem_cons_of_mem _ hdone)
        obtain ⟨o, ho⟩ := ih (remaining.erase s0) (s0.id :: done) hlen2 hsub2 hcover2
        refine ⟨s0 :: o, ?_⟩
        simp only [scheduleAux, if_neg hr, hfind, ho]

/-- In a topologically valid, complete order over a workflow with unique
step identifiers, a direct dependency strictly decreases the first-occurrence
index. -/
theorem rank_lt_of_dependsDirect (w o : List Step)
    (hnodup : (idsOf w).Nodup)
    (hsub : ∀ s ∈ o, s ∈ w) (hmem : ∀ s ∈ w, s ∈ o)
    (htopo : ∀ pre s post, o = pre ++ s :: post → ∀ d ∈ s.deps, d ∈ idsOf pre)
    (a b : String) (hab : dependsDirect w a b) :
    o.findIdx (fun s => s.id == b) < o.findIdx (fun s => s.id == a) := by
  obtain ⟨s, hsw, hsid, hbdep⟩ := hab
  have hso : s ∈ o := hmem s hsw
  have hex : ∃ x ∈ o, (fun u : Step => u.id == a) x = true :=
    ⟨s, hso, by simp [hsid]⟩
  have hilt : o.findIdx (fun u => u.id == a) < o.length :=
    List.findIdx_lt_length_of_exists hex
  set i := o.findIdx (fun u => u.id == a) with hidef
  have hpi : (o.get ⟨i, hilt⟩).id == a := List.findIdx_getElem (w := hilt)
  have hoi_id : (o.get ⟨i, hilt⟩).id = a := by simpa using hpi
  have hoiw : o.get ⟨i, hilt⟩ ∈ w := hsub _ (o.getElem_mem hilt)
  have hoi_eq : o.get ⟨i, hilt⟩ = s :=
    List.inj_on_of_nodup_map hnodup hoiw hsw (by rw [hoi_id, hsid])
  have hdecomp : o = o.take i ++ (o.get ⟨i, hilt⟩) :: o.drop (i + 1) := by
    conv_lhs => rw [← List.take_append_drop i o]
    rw [List.drop_eq_getElem_cons hilt]
    rfl
  have hbpre : b ∈ idsOf (o.take i) :=
    htopo _ _ _ hdecomp b (by rw [hoi_eq]; exact hbdep)
  obtain ⟨u, hu, huid⟩ : ∃ u ∈ o.take i, u.id = b := by
    simpa only [idsOf, List.mem_map] using hbpre
  obtain ⟨k, hk, hkget⟩ := List.mem_iff_getElem.mp hu
  have hki : k < i := by
    have := hk
    rw [List.length_take] at this
    omega
  have hkgeto : o.get ⟨k, Nat.lt_trans hki hilt⟩ = u :=
    ((List.getElem_take o (h := hk)).symm).trans hkget
  have hrankb : o.findIdx (fun u => u.id == b) ≤ k := by
    by_contra hcon
    push_neg at hcon
    have hfalse : ((o.get ⟨k, Nat.lt_trans hki hilt⟩).id == b) = false :=
      List.not_of_lt_findIdx hcon
    rw [hkgeto] at hfalse
    simp [huid] at hfalse
  omega

/-- A successful schedule certifies acyclicity of the workflow (for unique
step identifiers). -/
theorem schedule_ok_acyclic (w o : List Step)
    (hnodup : (idsOf w).Nodup) (h : schedule w = Except.ok o) :
    ¬ HasCycle w := by
  have hsound := scheduleAux_sound w.length w [] o h
  have htopo : ∀ pre s post, o = pre ++ s :: post → ∀ d ∈ s.deps, d ∈ idsOf pre := by
    intro pre s post heq d hd
    rcases hsound pre s post heq d hd with hfalse | hok
    · cases hfalse
    · exact hok
  have hsub : ∀ s ∈ o, s ∈ w := scheduleAux_subset w.length w [] o h
  have hmem : ∀ s ∈ w, s ∈ o := scheduleAux_complete w.length w [] o h
  rintro ⟨a, ha⟩
  have hmono : ∀ x y, Relation.TransGen (dependsDirect w) x y →
      o.findIdx (fun s => s.id == y) < o.findIdx (fun s => s.id == x) := by
    intro x y hxy
    induction hxy with
    | single h1 => exact rank_lt_of_dependsDirect w o hnodup hsub hmem htopo _ _ h1
    | tail _ h2 ih =>
      exact Nat.lt_trans (rank_lt_of_dependsDirect w o hnodup hsub hmem htopo _ _ h2) ih
  exact absurd (hmono a a ha) (Nat.lt_irrefl _)

/-! ### Claim theorems about the scheduler -/

/-- C7: for every workflow whose dependencies resolve and contain no cycle,
the scheduler produces an execution order that contains every declared step
and places every step after all of its dependencies; being a pure function of
the declaration-ordered workflow — at each stage the declaration-earliest
ready step is emitted, so ties between unrelated steps fall to declaration
order — the produced order is unique, hence identical across repeated runs
on identical declarations. -/
theorem C7_scheduler_topological_deterministic (w : List Step)
    (hres : Resolvable w) (hacyc : ¬ HasCycle w) :
    ∃ o, schedule w = Except.ok o ∧ TopoValid o ∧ (∀ s ∈ w, s ∈ o) ∧
      (∀ o2, schedule w = Except.ok o2 → o2 = o) := by
  obtain ⟨o, ho⟩ := scheduleAux_ok w hres hacyc w.length w [] (Nat.le_refl _)
    (fun _ hs => hs) (fun s hs => Or.inl hs)
  refine ⟨o, ho, ?_, ?_, ?_⟩
  · intro pre s post heq d hd
    rcases scheduleAux_sound w.length w [] o ho pre s post heq d hd with h | h
    · cases h
    · exact h
  · exact fun s hs => scheduleAux_complete w.length w [] o ho s hs
  · intro o2 h2
    have : Except.ok (ε := ConfigError) o = Except.ok o2 := ho.symm.trans h2
    exact (Except.ok.injEq _ _ ▸ this).symm

def genStep : Step := { id := "theme_generation", deps := [] }

def allocStep : Step := { id := "theme_allocation", deps := ["theme_generation"] }

def sentimentStep : Step := { id := "sentiment", deps := [] }

def demoWorkflow : List Step := [genStep, allocStep, sentimentStep]

def demoRank : String → Nat := fun a => if a = "theme_generation" then 0 else 1

theorem C7_scheduler_topological_deterministic_witness :
    ∃ o, schedule demoWorkflow = Except.ok o ∧ TopoValid o ∧
      (∀ s ∈ demoWorkflow, s ∈ o) ∧
      (∀ o2, schedule demoWorkflow = Except.ok o2 → o2 = o) := by
  apply C7_scheduler_topological_deterministic demoWorkflow
  · intro s hs d hd
    refine ⟨genStep, by decide, ?_⟩
    fin_cases hs <;> simp_all [demoWorkflow, genStep, allocStep, sentimentStep]
  · apply no_cycle_of_rank demoWorkflow demoRank
    decide

/-- C8: every workflow containing a dependency cycle (with unique step
identifiers) fails at graph build with a configuration error, and the run
issues zero remote calls — execution never starts. -/
theorem C8_cycle_fails_before_execution (w : List Step)
    (hnodup : (idsOf w).Nodup) (hcyc : HasCycle w) :
    schedule w = Except.error ConfigError.cyclicOrUnresolved ∧
    (runWorkflow w).1 = Except.error ConfigError.cyclicOrUnresolved ∧
    (runWorkflow w).2 = 0 := by
  have hsched : schedule w = Except.error ConfigError.cyclicOrUnresolved := by
    cases hs : schedule w with
    | ok o => exact absurd hcyc (schedule_ok_acyclic w o hnodup hs)
    | error e =>
      cases e
      rfl
  refine ⟨hsched, ?_, ?_⟩ <;> simp [runWorkflow, hsched]

def cycStepX : Step := { id := "x", deps := ["y"] }

def cycStepY : Step := { id := "y", deps := ["x"] }

def cycWorkflow : List Step := [cycStepX, cycStepY]

theorem C8_cycle_fails_before_execution_witness :
    schedule cycWorkflow = Except.error ConfigError.cyclicOrUnresolved ∧
    (runWorkflow cycWorkflow).2 = 0 := by
  have hxy : dependsDirect cycWorkflow "x" "y" :=
    ⟨cycStepX, by decide, rfl, by decide⟩
  have hyx : dependsDirect cycWorkflow "y" "x" :=
    ⟨cycStepY, by decide, rfl, by decide⟩
  have hcyc : HasCycle cycWorkflow :=
    ⟨"x", (Relation.TransGen.single hxy).tail hyx⟩
  have h := C8_cycle_fails_before_execution cycWorkflow (by decide) hcyc
  exact ⟨h.1, h.2.2⟩

/-! ### Cache and fingerprinting (modelled from the spec)

The repository's cache/fingerprinting layer (§4.2) is likewise not among the
provided source files; the definitions below are modelled from the
specification text. -/

/-- Modelled from the spec: a step configuration — the step kind plus its
kind-specific option record (§3 "Step", §4.2). -/
structure StepConfig where
  kind : String
  options : List (String × String)
deriving Repr, DecidableEq

/-- Insert one key/value pair into a key-sorted option list. -/
def insertOpt (kv : String × String) :
    List (String × String) → List (String × String)
  | [] => [kv]
  | x :: xs => if kv.1 ≤ x.1 then kv :: x :: xs else x :: insertOpt kv xs

/-- Modelled from the spec: configuration normalization — stable key ordering
(§4.2 "normalized configuration (stable key ordering, default values
materialized)"; defaults are assumed already materialized in `options`). -/
def normalizeOptions : List (String × String) → List (String × String)
  | [] => []
  | x :: xs => insertOpt x (normalizeOptions xs)

/-- Modelled from the spec: the fingerprint is a deterministic digest of the
step kind, the normalized configuration and the content identity of the
resolved input — a pure function of values, never of in-memory addresses
(§4.2). The digest is modelled as the canonical encoding itself. -/
def fingerprint (cfg : StepConfig) (input : List String) : String :=
  "kind:" ++ cfg.kind ++ ";cfg:" ++
    String.intercalate "," ((normalizeOptions cfg.options).map
      fun kv => kv.1 ++ "=" ++ kv.2) ++
    ";input:" ++ String.intercalate "," input

/-- Modelled from the spec: the memo store plus a counter of remote
invocations performed so far (§4.2 "lookup/store", §8). -/
structure CacheState (Result : Type) where
  entries : List (String × Result)
  remoteCalls : Nat

/-- Modelled from the spec: execute one step against the cache — compute the
fingerprint, serve a hit from the store with no remote call, and on a miss
invoke the remote once and store the result under the fingerprint (§4.1
"Execution", §4.2). -/
def execStep {Result : Type} (remote : StepConfig → List String → Result)
    (cfg : StepConfig) (input : List String) (st : CacheState Result) :
    Result × CacheState Result :=
  let fp := fingerprint cfg input
  match st.entries.lookup fp with
  | some r => (r, st)
  | none =>
    let r := remote cfg input
    (r, ⟨(fp, r) :: st.entries, st.remoteCalls + 1⟩)

/-- C9: fingerprinting is a pure function of the step configuration and the
input content — two runs over a fixed dataset and step configuration compute
the same fingerprint — and after any first run of the step, an identical
second run is served from the cache: it issues zero additional remote calls
and returns a result equal to the first run's. -/
theorem C9_cache_second_run_free {Result : Type}
    (remote : StepConfig → List String → Result)
    (cfg : StepConfig) (input : List String) (st0 : CacheState Result) :
    fingerprint cfg input = fingerprint cfg input ∧
    (execStep remote cfg input (execStep remote cfg input st0).2).1 =
      (execStep remote cfg input st0).1 ∧
    (execStep remote cfg input (execStep remote cfg input st0).2).2.remoteCalls =
      (execStep remote cfg input st0).2.remoteCalls := by
  refine ⟨rfl, ?_⟩
  cases hl : st0.entries.lookup (fingerprint cfg input) with
  | some r =>
    constructor <;> simp [execStep, hl]
  | none =>
    constructor <;> simp [execStep, hl]

end Pulse
